import Mathlib

/-!
# Verification of the forexsage-agent async task / webhook subsystem

Shallow embedding of the TypeScript sources:

* `WebhookService` (`src/mastra/services/webhook-service.ts`):
  `sendWebhook` with retry/backoff, and the pending-request map.
* `TaskWorker` (`src/mastra/workers/task-worker.ts`): FIFO task queue.
* `AsyncProcessor.executeWithFallback` (`src/mastra/utils/async-utils.ts`).
* JSON-RPC route handlers (`forexsage-a2a-route.ts`,
  `complete-forex-analysis-a2a-route.ts`).

External effects (HTTP responses, timer firings, agent outcomes) are passed
in as explicit environment parameters; JavaScript exceptions are modelled
with `Except String`.
-/

namespace ForexSage

/-! ## Webhook delivery service (`WebhookService.sendWebhook`) -/

/-- `WebhookConfig` from `webhook-service.ts`: delivery URL, bearer token,
`authentication.schemes`. -/
structure WebhookConfig where
  url : String
  token : String
  schemes : List String
  deriving Repr, DecidableEq

/-- Behaviour of one `fetch` call: an HTTP response with a status code, or a
thrown network error. -/
inductive AttemptResult where
  | response (status : Nat)
  | netError (msg : String)
  deriving Repr, DecidableEq

/-- `fetch` as an exception-throwing operation. -/
def fetchAttempt : AttemptResult → Except String Nat
  | .response s => .ok s
  | .netError m => .error m

/-- JavaScript `try { body } catch (e) { handler }`. -/
def tryCatch {α : Type} (body : Except String α)
    (handler : String → Except String α) : Except String α :=
  match body with
  | .ok v => .ok v
  | .error e => handler e

/-- An attempt counts as delivered iff `response.ok`, i.e. status 200-299;
a thrown network error is never ok. -/
def attemptOk : AttemptResult → Bool
  | .response s => 200 ≤ s && s ≤ 299
  | .netError _ => false

/-- Header construction from `sendWebhook`: always `Content-Type`, plus
`Authorization: Bearer <token>` when the scheme list contains `"Bearer"`
(the code does not test the token itself). -/
def webhookHeaders (cfg : WebhookConfig) : List (String × String) :=
  let base := [("Content-Type", "application/json")]
  if cfg.schemes.contains "Bearer" then
    base ++ [("Authorization", "Bearer " ++ cfg.token)]
  else
    base

/-- One outbound POST issued by an attempt of `sendWebhook`. -/
structure HttpRequest (P : Type) where
  url : String
  headers : List (String × String)
  body : P
  deriving Repr, DecidableEq

/-- Observable outcome of a `sendWebhook` call: the returned boolean, the
requests issued (one per attempt, in order) and the waits between
consecutive attempts (in ms, in order). -/
structure SendOutcome (P : Type) where
  success : Bool
  requests : List (HttpRequest P)
  delays : List Nat
  deriving Repr, DecidableEq

/-- `Math.min(1000 * Math.pow(2, retryCount - 1), 10000)` from the source. -/
def backoffDelay (retryCount : Nat) : Nat :=
  min (1000 * 2 ^ (retryCount - 1)) 10000

/-- The loop body's `try { const response = await fetch(...); if (ok) ... }
catch (error) { log }`: the fetch may throw, the catch swallows the error
and the iteration continues as a failed attempt. -/
def attemptRun (a : AttemptResult) : Except String Bool :=
  tryCatch
    (do
      let s ← fetchAttempt a
      pure (decide (200 ≤ s) && decide (s ≤ 299)))
    (fun _e => .ok false)

/-- The `while (retryCount <= maxRetries)` loop of `sendWebhook`, by
recursion on the remaining attempt budget `maxRetries + 1 - retryCount`.
The delay is scheduled only when another attempt follows. -/
def sendWebhookGo {P : Type} (cfg : WebhookConfig) (payload : P)
    (attempts : Nat → AttemptResult) :
    (remaining : Nat) → (retryCount : Nat) → Except String (SendOutcome P)
  | 0, _ => .ok ⟨false, [], []⟩
  | r + 1, rc =>
    let req : HttpRequest P := ⟨cfg.url, webhookHeaders cfg, payload⟩
    match attemptRun (attempts rc) with
    | .error e => .error e
    | .ok true => .ok ⟨true, [req], []⟩
    | .ok false =>
      match r with
      | 0 => .ok ⟨false, [req], []⟩
      | r' + 1 => do
        let o ← sendWebhookGo cfg payload attempts (r' + 1) (rc + 1)
        .ok ⟨o.success, req :: o.requests, backoffDelay (rc + 1) :: o.delays⟩

/-- `WebhookService.sendWebhook(webhookConfig, payload, maxRetries = 3)`.
`attempts` gives the environment's behaviour for the `fetch` of each
0-indexed loop iteration. -/
def sendWebhook {P : Type} (cfg : WebhookConfig) (payload : P)
    (attempts : Nat → AttemptResult) (maxRetries : Nat := 3) :
    Except String (SendOutcome P) :=
  sendWebhookGo cfg payload attempts (maxRetries + 1) 0

lemma attemptRun_eq (a : AttemptResult) :
    attemptRun a = .ok (attemptOk a) := by
  cases a <;> rfl

lemma exceptOk_bind {α β : Type} (a : α) (f : α → Except String β) :
    (Except.ok a >>= f) = f a := rfl

/-- Characterisation of the retry loop: with budget `r + 1` starting at
retry counter `rc` it never throws, issues between 1 and `r + 1` identical
requests, succeeds exactly when some attempt in the window is 2xx, stops at
the first 2xx, exhausts the budget otherwise, and waits
`backoffDelay (rc + i + 1)` after the `i`-th attempt it makes (except the
last). -/
lemma sendWebhookGo_spec {P : Type} (cfg : WebhookConfig) (payload : P)
    (attempts : Nat → AttemptResult) :
    ∀ r rc, ∃ o : SendOutcome P,
      sendWebhookGo cfg payload attempts (r + 1) rc = .ok o ∧
      1 ≤ o.requests.length ∧ o.requests.length ≤ r + 1 ∧
      (∀ q ∈ o.requests, q = ⟨cfg.url, webhookHeaders cfg, payload⟩) ∧
      (o.success = true ↔ ∃ k < r + 1, attemptOk (attempts (rc + k)) = true) ∧
      (o.success = true →
        attemptOk (attempts (rc + (o.requests.length - 1))) = true ∧
        ∀ j < o.requests.length - 1, attemptOk (attempts (rc + j)) = false) ∧
      (o.success = false → o.requests.length = r + 1) ∧
      o.delays = (List.range (o.requests.length - 1)).map
        (fun i => backoffDelay (rc + i + 1)) := by
  intro r
  induction r with
  | zero =>
    intro rc
    by_cases h : attemptOk (attempts rc) = true
    · refine ⟨⟨true, [⟨cfg.url, webhookHeaders cfg, payload⟩], []⟩, ?_⟩
      simp [sendWebhookGo, attemptRun_eq, h]
    · refine ⟨⟨false, [⟨cfg.url, webhookHeaders cfg, payload⟩], []⟩, ?_⟩
      simp only [Bool.not_eq_true] at h
      simp [sendWebhookGo, attemptRun_eq, h]
  | succ r ih =>
    intro rc
    by_cases h : attemptOk (attempts rc) = true
    · refine ⟨⟨true, [⟨cfg.url, webhookHeaders cfg, payload⟩], []⟩, ?_⟩
      refine ⟨by simp [sendWebhookGo, attemptRun_eq, h], by simp, by simp,
        by simp, ?_, ?_, by simp, by simp⟩
      · constructor
        · intro _
          exact ⟨0, by omega, by simpa using h⟩
        · intro _
          rfl
      · intro _
        refine ⟨by simpa using h, ?_⟩
        intro j hj
        simp only [List.length_singleton] at hj
        omega
    · obtain ⟨o, ho, h1, h2, h3, h4, h5, h6, h7⟩ := ih (rc + 1)
      simp only [Bool.not_eq_true] at h
      refine ⟨⟨o.success, ⟨cfg.url, webhookHeaders cfg, payload⟩ :: o.requests,
        backoffDelay (rc + 1) :: o.delays⟩, ?_, ?_, ?_, ?_, ?_, ?_, ?_, ?_⟩
      · simp [sendWebhookGo, attemptRun_eq, h, ho, exceptOk_bind]
      · simp
      · simpa using h2
      · intro q hq
        rcases List.mem_cons.mp hq with hq | hq
        · exact hq
        · exact h3 q hq
      · simp only
        rw [h4]
        constructor
        · rintro ⟨k, hk, hak⟩
          exact ⟨k + 1, by omega, by
            have : rc + 1 + k = rc + (k + 1) := by omega
            rwa [this] at hak⟩
        · rintro ⟨k, hk, hak⟩
          match k, hak with
          | 0, hak => simp [h] at hak
          | k + 1, hak =>
            exact ⟨k, by omega, by
              have : rc + (k + 1) = rc + 1 + k := by omega
              rwa [this] at hak⟩
      · intro hs
        obtain ⟨ha, hb⟩ := h5 hs
        have hlen : 1 ≤ o.requests.length := h1
        constructor
        · simp only [List.length_cons]
          have : rc + (o.requests.length + 1 - 1) =
              rc + 1 + (o.requests.length - 1) := by omega
          rw [this]
          exact ha
        · intro j hj
          simp only [List.length_cons] at hj
          match j with
          | 0 => simpa using h
          | j + 1 =>
            have : rc + (j + 1) = rc + 1 + j := by omega
            rw [this]
            exact hb j (by omega)
      · intro hs
        simp only [List.length_cons]
        rw [h6 hs]
      · simp only [List.length_cons, Nat.add_sub_cancel]
        have hlen : 1 ≤ o.requests.length := h1
        rw [h7]
        have : o.requests.length = (o.requests.length - 1) + 1 := by omega
        rw [this, List.range_succ_eq_map]
        simp only [List.map_cons, List.map_map]
        congr 1
        apply List.map_congr_left
        intro i _
        simp only [Function.comp_apply]
        congr 1
        omega

/-- **C1**: for every webhook configuration and payload, `sendWebhook` with
`maxRetries = 3` makes at most 4 delivery attempts, returns `true` exactly
when some attempt in the budget gets a 2xx response and stops at the first
such attempt, returns `false` only after all 4 attempts are exhausted,
never throws past its own boundary (the result is always `.ok`), and waits
`min(1000 * 2^(attempt-1), 10000)` ms between consecutive attempts
(1-indexed attempt counter). -/
theorem sendWebhook_spec {P : Type} (cfg : WebhookConfig) (payload : P)
    (attempts : Nat → AttemptResult) :
    ∃ o : SendOutcome P,
      sendWebhook cfg payload attempts 3 = .ok o ∧
      1 ≤ o.requests.length ∧ o.requests.length ≤ 4 ∧
      (∀ q ∈ o.requests, q = ⟨cfg.url, webhookHeaders cfg, payload⟩) ∧
      (o.success = true ↔ ∃ k < 4, attemptOk (attempts k) = true) ∧
      (o.success = true →
        attemptOk (attempts (o.requests.length - 1)) = true ∧
        ∀ j < o.requests.length - 1, attemptOk (attempts j) = false) ∧
      (o.success = false → o.requests.length = 4) ∧
      o.delays = (List.range (o.requests.length - 1)).map
        (fun i => min (1000 * 2 ^ i) 10000) := by
  obtain ⟨o, ho, h1, h2, h3, h4, h5, h6, h7⟩ :=
    sendWebhookGo_spec cfg payload attempts 3 0
  refine ⟨o, ho, h1, h2, h3, by simpa using h4, by simpa using h5,
    h6, ?_⟩
  rw [h7]
  apply List.map_congr_left
  intro i _
  simp [backoffDelay]

/-- Witness for C1: against an endpoint answering HTTP 500 forever, the
bound and the delay schedule are observed concretely. -/
theorem sendWebhook_spec_witness :
    ∃ o : SendOutcome String,
      sendWebhook ⟨"https://w", "t", []⟩ "p" (fun _ => .response 500) 3 =
        .ok o ∧
      o.requests.length ≤ 4 ∧
      o.delays = (List.range (o.requests.length - 1)).map
        (fun i => min (1000 * 2 ^ i) 10000) := by
  obtain ⟨o, ho, _, h2, _, _, _, _, h7⟩ :=
    sendWebhook_spec ⟨"https://w", "t", []⟩ "p" (fun _ => .response 500)
  exact ⟨o, ho, h2, h7⟩

/-! ## Timeout/fallback orchestrator (`AsyncProcessor.executeWithFallback`,
from `src/mastra/utils/async-utils.ts`) -/

/-- Outcome of `Promise.race([fn(), timer])`: the work settles first with a
value or a thrown error, or the `timeoutMs` timer rejects first with
`Error('Request timeout')`. -/
inductive RaceOutcome (T : Type) where
  | workOk (v : T)
  | workErr (msg : String)
  | timedOut
  deriving Repr, DecidableEq

/-- The `AsyncProcessOptions` record (`taskId`/`contextId` default to fresh
UUIDs in the source; the model takes them as given strings). -/
structure AsyncProcessOptions where
  timeoutMs : Nat := 55000
  webhookConfig : Option WebhookConfig := none
  fallbackToWebhook : Bool := true
  taskId : String
  contextId : String
  deriving Repr, DecidableEq

/-- Value returned by `executeWithFallback`: the work's result, or the
`{ state: 'processing', taskId }` marker. -/
inductive ExecResult (T : Type) where
  | value (v : T)
  | processing (taskId : String)

/-- Observable behaviour of one `executeWithFallback` call: the settled
result (or propagated error), how many times `fn` was invoked, and whether
the best-effort success webhook was launched. -/
structure ExecObs (T : Type) where
  result : Except String (ExecResult T)
  workInvocations : Nat
  webhookFired : Bool

/-- The error the race rejects with in each outcome. -/
def raceResult {T : Type} : RaceOutcome T → Except String T
  | .workOk v => .ok v
  | .workErr m => .error m
  | .timedOut => .error "Request timeout"

/-- The timeout-guidance error thrown when no webhook fallback applies. -/
def timeoutGuidance (timeoutMs : Nat) : String :=
  "Request timeout after " ++ toString timeoutMs ++
    "ms. Try using webhooks for longer processing."

/-- The timeout-guidance message differs from the race's own rejection
message; length comparison settles it. -/
lemma timeoutGuidance_ne (n : Nat) :
    timeoutGuidance n ≠ "Request timeout" := by
  unfold timeoutGuidance
  intro habs
  have hlen := congrArg String.length habs
  rw [String.length_append, String.length_append] at hlen
  have h1 : ("Request timeout after " : String).length = 22 := rfl
  have h2 : ("ms. Try using webhooks for longer processing." : String).length
      = 45 := rfl
  have h3 : ("Request timeout" : String).length = 15 := rfl
  omega

/-- The `catch (error)` block of `executeWithFallback`: timeouts are
recognised by exact string equality on `error.message`. -/
def fallbackCatch (T : Type) (opts : AsyncProcessOptions) (m : String) :
    Except String (ExecResult T) :=
  if m = "Request timeout" then
    if opts.webhookConfig.isSome && opts.fallbackToWebhook then
      .ok (.processing opts.taskId)
    else
      .error (timeoutGuidance opts.timeoutMs)
  else
    .error m

/-- `AsyncProcessor.executeWithFallback(fn, options)`. `fn()` is invoked
exactly once (inside the race); the race's outcome is the environment
parameter `race`. On success before timeout a fire-and-forget webhook
delivery is launched when a webhook configuration is present. -/
def executeWithFallback {T : Type} (race : RaceOutcome T)
    (opts : AsyncProcessOptions) : ExecObs T :=
  match raceResult race with
  | .ok v =>
    { result := .ok (.value v), workInvocations := 1,
      webhookFired := opts.webhookConfig.isSome }
  | .error e =>
    { result := fallbackCatch T opts e, workInvocations := 1,
      webhookFired := false }

/-- **C3**: `executeWithFallback` races `work()` against the timer; when
the timer fires first and a webhook configuration is present with fallback
enabled it returns the `{ state: 'processing', taskId }` marker without
re-invoking `work()` (the work is invoked exactly once in every outcome);
when the timer fires first and no webhook configuration is present it
throws the timeout error instructing the caller to use webhooks; and any
non-timeout error thrown by `work()` propagates unchanged. -/
theorem executeWithFallback_contract {T : Type} (race : RaceOutcome T)
    (opts : AsyncProcessOptions) :
    (executeWithFallback race opts).workInvocations = 1 ∧
    (race = .timedOut → opts.webhookConfig.isSome →
      opts.fallbackToWebhook = true →
      (executeWithFallback race opts).result =
        .ok (.processing opts.taskId)) ∧
    (race = .timedOut → opts.webhookConfig = none →
      (executeWithFallback race opts).result =
        .error (timeoutGuidance opts.timeoutMs)) ∧
    (∀ m, race = .workErr m → m ≠ "Request timeout" →
      (executeWithFallback race opts).result = .error m) := by
  refine ⟨?_, ?_, ?_, ?_⟩
  · cases race <;> rfl
  · rintro rfl hs hf
    simp [executeWithFallback, raceResult, fallbackCatch, hs, hf]
  · rintro rfl hn
    simp [executeWithFallback, raceResult, fallbackCatch, hn]
  · rintro m rfl hm
    simp [executeWithFallback, raceResult, fallbackCatch, hm]

/-- Witness for C3: all three branches at concrete inputs. -/
theorem executeWithFallback_contract_witness :
    (executeWithFallback (T := Nat) .timedOut
        ⟨55000, some ⟨"https://w", "t", ["Bearer"]⟩, true, "task-1", "ctx-1"⟩).result =
      .ok (.processing "task-1") ∧
    (executeWithFallback (T := Nat) .timedOut
        ⟨55000, none, true, "task-1", "ctx-1"⟩).result =
      .error (timeoutGuidance 55000) ∧
    (executeWithFallback (T := Nat) (.workErr "boom")
        ⟨55000, none, true, "task-1", "ctx-1"⟩).result = .error "boom" :=
  ⟨(executeWithFallback_contract .timedOut _).2.1 rfl rfl rfl,
   (executeWithFallback_contract .timedOut _).2.2.1 rfl rfl,
   (executeWithFallback_contract (.workErr "boom") _).2.2.2 "boom" rfl
     (by decide)⟩

/-- **C10**: `executeWithFallback` distinguishes its own timeout from
`work()`'s errors solely by string equality on `'Request timeout'`: a
`work()` that itself throws exactly that message is handled identically to
the timer firing — returning the processing marker when a webhook
configuration with fallback is present, throwing the timeout-guidance
error otherwise — and is never propagated unchanged. -/
theorem executeWithFallback_message_collision {T : Type}
    (opts : AsyncProcessOptions) :
    executeWithFallback (T := T) (.workErr "Request timeout") opts =
      executeWithFallback (T := T) .timedOut opts ∧
    (opts.webhookConfig.isSome → opts.fallbackToWebhook = true →
      (executeWithFallback (T := T) (.workErr "Request timeout") opts).result =
        .ok (.processing opts.taskId)) ∧
    (opts.webhookConfig = none →
      (executeWithFallback (T := T) (.workErr "Request timeout") opts).result =
        .error (timeoutGuidance opts.timeoutMs)) ∧
    (executeWithFallback (T := T) (.workErr "Request timeout") opts).result ≠
      .error "Request timeout" := by
  refine ⟨rfl, ?_, ?_, ?_⟩
  · intro hs hf
    exact (executeWithFallback_contract .timedOut opts).2.1 rfl hs hf
  · intro hn
    exact (executeWithFallback_contract .timedOut opts).2.2.1 rfl hn
  · by_cases h : (opts.webhookConfig.isSome && opts.fallbackToWebhook) = true
    · simp [executeWithFallback, raceResult, fallbackCatch, h]
    · simp only [Bool.not_eq_true] at h
      simp [executeWithFallback, raceResult, fallbackCatch, h,
        timeoutGuidance_ne opts.timeoutMs]

/-- Witness for C10 at a concrete option record. -/
theorem executeWithFallback_message_collision_witness :
    (executeWithFallback (T := Nat) (.workErr "Request timeout")
        ⟨55000, some ⟨"https://w", "t", ["Bearer"]⟩, true, "task-9", "ctx-9"⟩).result =
      .ok (.processing "task-9") :=
  (executeWithFallback_message_collision
    ⟨55000, some ⟨"https://w", "t", ["Bearer"]⟩, true, "task-9", "ctx-9"⟩).2.1
    rfl rfl

/-! ## Task queue / worker (`TaskWorker`, from
`src/mastra/workers/task-worker.ts`): functional drain model.

`processQueue` shifts tasks one at a time and fully awaits each before the
next; `processTask` invokes the agent, and on success sends a `completed`
envelope via `WebhookService.sendWebhook` when a webhook configuration is
present. On exception its `catch` sends a `failed` envelope (when
configured) and rethrows; `processQueue`'s own `catch` then sends a
`failed` envelope again and continues with the next task. -/

/-- Result of one agent invocation for a given queue-internal task id. -/
inductive TaskOutcome where
  | success (text : String)
  | failure (errMsg : String)
  deriving Repr, DecidableEq

/-- A `TaskRequest` already sitting in the queue (`id` models the
`randomUUID()` assigned by `addTask`; agent messages are irrelevant to the
delivery claims and elided). -/
structure QueuedTask where
  id : Nat
  taskId : Option String
  contextId : Option String
  webhookConfig : Option WebhookConfig
  deriving Repr, DecidableEq

/-- One `sendWebhook` call sequence launched by the worker: the payload's
JSON-RPC `id` (= the queue task id), the `result.status.state`, the
`status.error.data.details` of a failed envelope, and the response text of
a completed one. -/
structure SentPayload where
  payloadId : Nat
  state : String
  details : Option String
  text : Option String
  deriving Repr, DecidableEq

/-- `TaskWorker.processTask`: returns the `sendWebhook` call sequences it
launches and the exception it rethrows, if any. On failure the `catch`
block first delivers the failed envelope (details from `error.message`),
then rethrows. -/
def processTask (outcome : Nat → TaskOutcome) (t : QueuedTask) :
    List SentPayload × Option String :=
  match outcome t.id with
  | .success txt =>
    ((if t.webhookConfig.isSome then
        [⟨t.id, "completed", none, some txt⟩] else []), none)
  | .failure m =>
    ((if t.webhookConfig.isSome then
        [⟨t.id, "failed", some m, none⟩] else []), some m)

/-- The `catch` block of `processQueue`: when `processTask` threw and the
task carries a webhook configuration, `sendErrorWebhook` launches one more
failed-envelope delivery (it rebuilds the payload from `error.message`). -/
def drainCatch (t : QueuedTask) : Option String → List SentPayload
  | some m =>
    if t.webhookConfig.isSome then [⟨t.id, "failed", some m, none⟩] else []
  | none => []

/-- The `while (this.queue.length > 0)` drain of `TaskWorker.processQueue`:
each task is fully processed before the next; an exception from
`processTask` is caught, answered with `drainCatch`, and the loop
continues. Returns all launched `sendWebhook` call sequences in order and
the ids processed in order. -/
def processQueueDrain (outcome : Nat → TaskOutcome) :
    List QueuedTask → List SentPayload × List Nat
  | [] => ([], [])
  | t :: rest =>
    ((processTask outcome t).1 ++ drainCatch t (processTask outcome t).2 ++
       (processQueueDrain outcome rest).1,
     t.id :: (processQueueDrain outcome rest).2)

/-- **C8**: when processing of a task throws, the worker catches it,
delivers a `failed` envelope carrying the error message via the webhook
service when a configuration was supplied, and continues draining: every
task in the queue is processed in order regardless of earlier failures. -/
theorem taskWorker_failure_continues (outcome : Nat → TaskOutcome)
    (tasks : List QueuedTask) :
    (processQueueDrain outcome tasks).2 = tasks.map (·.id) ∧
    (∀ t ∈ tasks, ∀ m, outcome t.id = .failure m →
      t.webhookConfig.isSome →
      (⟨t.id, "failed", some m, none⟩ : SentPayload) ∈
        (processQueueDrain outcome tasks).1) := by
  induction tasks with
  | nil => exact ⟨rfl, by intro t ht; exact absurd ht (List.not_mem_nil t)⟩
  | cons t rest ih =>
    refine ⟨?_, ?_⟩
    · simp only [processQueueDrain, List.map_cons]
      exact congrArg _ ih.1
    · intro u hu m hm hw
      rcases List.mem_cons.mp hu with rfl | hu
      · simp [processQueueDrain, processTask, hm, hw]
      · simp only [processQueueDrain, List.append_assoc, List.mem_append]
        right; right
        exact ih.2 u hu m hm hw

/-- Witness for C8: two tasks, the first failing, both processed and the
failed envelope delivered. -/
theorem taskWorker_failure_continues_witness :
    (processQueueDrain
        (fun i => if i = 0 then .failure "boom" else .success "ok")
        [⟨0, none, none, some ⟨"https://w", "t", ["Bearer"]⟩⟩,
         ⟨1, none, none, some ⟨"https://w", "t", ["Bearer"]⟩⟩]).2 = [0, 1] ∧
    (⟨0, "failed", some "boom", none⟩ : SentPayload) ∈
      (processQueueDrain
        (fun i => if i = 0 then .failure "boom" else .success "ok")
        [⟨0, none, none, some ⟨"https://w", "t", ["Bearer"]⟩⟩,
         ⟨1, none, none, some ⟨"https://w", "t", ["Bearer"]⟩⟩]).1 :=
  ⟨(taskWorker_failure_continues _ _).1,
   (taskWorker_failure_continues _ _).2
     ⟨0, none, none, some ⟨"https://w", "t", ["Bearer"]⟩⟩ (by simp)
     "boom" (by simp) (by simp)⟩

/-- Within one `sendWebhook` call sequence, every retry attempt posts the
very same payload: the headers and body are computed once from the
immutable arguments. -/
lemma sendWebhook_payload_reuse {P : Type} (cfg : WebhookConfig)
    (payload : P) (attempts : Nat → AttemptResult) (mr : Nat)
    (o : SendOutcome P) (h : sendWebhook cfg payload attempts mr = .ok o) :
    ∀ q ∈ o.requests, q.body = payload := by
  obtain ⟨o', ho', _, _, h3, _⟩ := sendWebhookGo_spec cfg payload attempts mr 0
  rw [sendWebhook, ho'] at h
  obtain rfl : o' = o := Except.ok.inj h
  intro q hq
  rw [h3 q hq]

/-- Every delivery `processTask` launches carries the task's own id. -/
lemma processTask_payloadId (outcome : Nat → TaskOutcome) (u : QueuedTask) :
    ∀ d ∈ (processTask outcome u).1, d.payloadId = u.id := by
  intro d hd
  cases hout : outcome u.id with
  | success txt =>
    simp only [processTask, hout] at hd
    by_cases hwu : u.webhookConfig.isSome = true
    · simp only [hwu, if_true] at hd
      rw [List.mem_singleton.mp hd]
    · simp only [hwu, if_false] at hd
      exact absurd hd (List.not_mem_nil d)
  | failure m =>
    simp only [processTask, hout] at hd
    by_cases hwu : u.webhookConfig.isSome = true
    · simp only [hwu, if_true] at hd
      rw [List.mem_singleton.mp hd]
    · simp only [hwu, if_false] at hd
      exact absurd hd (List.not_mem_nil d)

/-- Every delivery the drain's catch launches carries the task's own id. -/
lemma drainCatch_payloadId (u : QueuedTask) (e : Option String) :
    ∀ d ∈ drainCatch u e, d.payloadId = u.id := by
  intro d hd
  cases e with
  | none => exact absurd hd (List.not_mem_nil d)
  | some m =>
    simp only [drainCatch] at hd
    by_cases hwu : u.webhookConfig.isSome = true
    · simp only [hwu, if_true] at hd
      rw [List.mem_singleton.mp hd]
    · simp only [hwu, if_false] at hd
      exact absurd hd (List.not_mem_nil d)

/-- Every payload the drain launches carries the id of some queued task. -/
lemma processQueueDrain_payloadIds (outcome : Nat → TaskOutcome)
    (tasks : List QueuedTask) :
    ∀ d ∈ (processQueueDrain outcome tasks).1,
      d.payloadId ∈ tasks.map (·.id) := by
  induction tasks with
  | nil => intro d hd; exact absurd hd (List.not_mem_nil d)
  | cons t rest ih =>
    intro d hd
    simp only [processQueueDrain, List.append_assoc, List.mem_append] at hd
    simp only [List.map_cons, List.mem_cons]
    rcases hd with hd | hd | hd
    · exact Or.inl (processTask_payloadId outcome t d hd)
    · exact Or.inl (drainCatch_payloadId t _ d hd)
    · exact Or.inr (ih d hd)

/-- **C4 counterexample**: a single failing task with a webhook
configuration is delivered as a `failed` envelope by *two* `sendWebhook`
call sequences (one from `processTask`'s catch, one from `processQueue`'s
catch), not exactly one as claimed. -/
theorem taskWorker_single_failed_delivery_false :
    ¬ (((processQueueDrain (fun _ => .failure "boom")
          [⟨0, none, none, some ⟨"https://w", "t", ["Bearer"]⟩⟩]).1.filter
          (fun d => d.payloadId == 0 && d.state == "failed")).length = 1) ∧
    ((processQueueDrain (fun _ => .failure "boom")
        [⟨0, none, none, some ⟨"https://w", "t", ["Bearer"]⟩⟩]).1.filter
        (fun d => d.payloadId == 0 && d.state == "failed")).length = 2 := by
  constructor
  · decide
  · decide

/-- **C4 (amended)**: a task that fails while carrying a webhook
configuration is delivered as a `failed` envelope by exactly *two*
`sendWebhook` call sequences, launched sequentially (one from
`processTask`'s catch, one from `processQueue`'s catch); within each
single `sendWebhook` call sequence every retry attempt reuses the same
payload rather than reconstructing it between attempts. -/
theorem taskWorker_double_failed_delivery (outcome : Nat → TaskOutcome)
    (tasks : List QueuedTask) (hids : (tasks.map (·.id)).Nodup)
    (t : QueuedTask) (ht : t ∈ tasks) (m : String)
    (hm : outcome t.id = .failure m) (hw : t.webhookConfig.isSome) :
    ((processQueueDrain outcome tasks).1.filter
        (fun d => d.payloadId == t.id && d.state == "failed")).length = 2 ∧
    (∀ {P : Type} (cfg : WebhookConfig) (payload : P)
        (attempts : Nat → AttemptResult) (mr : Nat) (o : SendOutcome P),
      sendWebhook cfg payload attempts mr = .ok o →
      ∀ q ∈ o.requests, q.body = payload) := by
  refine ⟨?_, fun cfg payload attempts mr o h =>
    sendWebhook_payload_reuse cfg payload attempts mr o h⟩
  induction tasks with
  | nil => exact absurd ht (List.not_mem_nil t)
  | cons u rest ih =>
    simp only [List.map_cons, List.nodup_cons] at hids
    simp only [processQueueDrain, List.append_assoc, List.filter_append,
      List.length_append]
    rcases List.mem_cons.mp ht with rfl | htr
    · have hC : (processQueueDrain outcome rest).1.filter
          (fun d => d.payloadId == t.id && d.state == "failed") = [] := by
        apply List.filter_eq_nil_iff.mpr
        intro d hd
        have hin := processQueueDrain_payloadIds outcome rest d hd
        have hne : d.payloadId ≠ t.id := fun he => hids.1 (he ▸ hin)
        simp [hne]
      rw [hC]
      simp [processTask, hm, hw, drainCatch]
    · have hne1 : ∀ d ∈ (processTask outcome u).1, d.payloadId ≠ t.id := by
        intro d hd he
        rw [processTask_payloadId outcome u d hd] at he
        exact hids.1 (he ▸ List.mem_map_of_mem (·.id) htr)
      have hne2 : ∀ d ∈ drainCatch u (processTask outcome u).2,
          d.payloadId ≠ t.id := by
        intro d hd he
        rw [drainCatch_payloadId u _ d hd] at he
        exact hids.1 (he ▸ List.mem_map_of_mem (·.id) htr)
      have hA : (processTask outcome u).1.filter
          (fun d => d.payloadId == t.id && d.state == "failed") = [] :=
        List.filter_eq_nil_iff.mpr (fun d hd => by simp [hne1 d hd])
      have hB : (drainCatch u (processTask outcome u).2).filter
          (fun d => d.payloadId == t.id && d.state == "failed") = [] :=
        List.filter_eq_nil_iff.mpr (fun d hd => by simp [hne2 d hd])
      rw [hA, hB]
      simpa using ih hids.2 htr

/-- Witness for the amended C4 at a concrete failing task. -/
theorem taskWorker_double_failed_delivery_witness :
    ((processQueueDrain (fun i => if i = 0 then .failure "boom"
          else .success "ok")
        [⟨0, none, none, some ⟨"https://w", "t", ["Bearer"]⟩⟩,
         ⟨1, none, none, some ⟨"https://w", "t", ["Bearer"]⟩⟩]).1.filter
        (fun d => d.payloadId == 0 && d.state == "failed")).length = 2 :=
  (taskWorker_double_failed_delivery _ _ (by decide)
    ⟨0, none, none, some ⟨"https://w", "t", ["Bearer"]⟩⟩ (by simp)
    "boom" (by decide) (by decide)).1

/-! ## Task queue ordering (`TaskWorker.addTask` / `processQueue`):
event-loop step model.

Tasks may be enqueued while the drain loop is running; the single-threaded
event loop interleaves `addTask` calls with the `await` boundaries of the
drain. Task ids model the `randomUUID()` supply as a fresh counter, and
`Date.now()` as a monotone clock. -/

/-- Snapshot of the worker's mutable state plus the processing history:
`queue` and `processing` are the fields of `TaskWorker`; `current` is the
task inside an `await this.processTask(task)`; `started` / `finished`
record, in order, the tasks whose processing began / fully ended (success
or failure); `stamps.get i` is the timestamp `addTask` assigned to task
`i`. -/
structure WorkerState where
  queue : List Nat
  nextId : Nat
  processing : Bool
  current : Option Nat
  started : List Nat
  finished : List Nat
  now : Nat
  stamps : List Nat
  deriving Repr, DecidableEq

def WorkerState.init : WorkerState :=
  ⟨[], 0, false, none, [], [], 0, []⟩

/-- Atomic transitions of the worker between `await` points.

* `addTask`: assigns the fresh id and the current timestamp, pushes at the
  tail, and (synchronously) starts `processQueue` when it is not running —
  so `processing` is true afterwards in either case.
* `beginTask`: the drain loop shifts the head of the queue and enters
  `await this.processTask(task)`; only possible when no task is in flight.
* `finishTask`: the awaited `processTask` settles (success or failure —
  the loop's `catch` treats both as completion of this task).
* `stopDrain`: the loop exits when the queue is empty; `processing := false`.
* `tick`: time advances. -/
inductive WorkerStep : WorkerState → WorkerState → Prop where
  | addTask (s : WorkerState) :
      WorkerStep s { s with queue := s.queue ++ [s.nextId],
                            nextId := s.nextId + 1,
                            stamps := s.stamps ++ [s.now],
                            processing := true }
  | beginTask (s : WorkerState) (t : Nat) (rest : List Nat) :
      s.processing = true → s.current = none → s.queue = t :: rest →
      WorkerStep s { s with queue := rest, current := some t,
                            started := s.started ++ [t] }
  | finishTask (s : WorkerState) (t : Nat) :
      s.current = some t →
      WorkerStep s { s with current := none,
                            finished := s.finished ++ [t] }
  | stopDrain (s : WorkerState) :
      s.processing = true → s.current = none → s.queue = [] →
      WorkerStep s { s with processing := false }
  | tick (s : WorkerState) :
      WorkerStep s { s with now := s.now + 1 }

/-- States reachable from the initial worker. -/
def WorkerReach (s : WorkerState) : Prop :=
  Relation.ReflTransGen WorkerStep WorkerState.init s

/-- The inductive invariant of the worker. -/
def WorkerInv (s : WorkerState) : Prop :=
  s.started ++ s.queue = List.range s.nextId ∧
  s.finished ++ s.current.toList = s.started ∧
  s.stamps.length = s.nextId

lemma workerInv_init : WorkerInv WorkerState.init := by
  refine ⟨rfl, rfl, rfl⟩

lemma workerInv_step {s s' : WorkerState} (h : WorkerStep s s')
    (hs : WorkerInv s) : WorkerInv s' := by
  obtain ⟨h1, h2, h3⟩ := hs
  cases h with
  | addTask =>
    refine ⟨?_, h2, ?_⟩
    · simp only
      rw [← List.append_assoc, h1, List.range_succ]
    · simp only [List.length_append, List.length_singleton, h3]
  | beginTask t rest hp hc hq =>
    refine ⟨?_, ?_, h3⟩
    · simp only
      rw [List.append_assoc]
      simpa [hq] using h1
    · simp only [hc, Option.toList_none, List.append_nil] at h2
      simp [h2]
  | finishTask t hc =>
    refine ⟨h1, ?_, h3⟩
    simp only [hc, Option.toList_some] at h2
    simp [h2]
  | stopDrain hp hc hq => exact ⟨h1, h2, h3⟩
  | tick => exact ⟨h1, h2, h3⟩

lemma workerInv_reach {s : WorkerState} (h : WorkerReach s) : WorkerInv s := by
  induction h with
  | refl => exact workerInv_init
  | tail _ hstep ih => exact workerInv_step hstep ih

/-- A prefix of `List.range n` is the range of its own length. -/
lemma prefix_range_eq {l : List Nat} {n : Nat}
    (h : l <+: List.range n) : l = List.range l.length := by
  obtain ⟨rest, hrest⟩ := h
  have hlen : l.length ≤ n := by
    have := congrArg List.length hrest
    simp only [List.length_append, List.length_range] at this
    omega
  have h2 := congrArg (List.take l.length) hrest
  rw [List.take_left, List.take_range] at h2
  rw [Nat.min_eq_left hlen] at h2
  exact h2

/-- **C2**: the task queue is strictly serial and FIFO. In every reachable
state the enqueued ids are the fresh consecutive ids in enqueue order
(`addTask` appends the fresh unique id, with a timestamp, at the tail);
tasks begin processing in exactly the enqueue order and finish in exactly
the begin order; at most one task is ever in flight, and task `t + 1` has
begun only if task `t` has fully finished (success or failure). -/
theorem taskQueue_fifo_serial (s : WorkerState) (h : WorkerReach s) :
    s.started ++ s.queue = List.range s.nextId ∧
    s.started = List.range s.started.length ∧
    s.finished = List.range s.finished.length ∧
    s.finished ++ s.current.toList = s.started ∧
    s.started.Nodup ∧
    s.stamps.length = s.nextId ∧
    (∀ t : Nat, (t + 1) ∈ s.started → t ∈ s.finished) := by
  obtain ⟨h1, h2, h3⟩ := workerInv_reach h
  have hst : s.started = List.range s.started.length :=
    prefix_range_eq ⟨s.queue, h1⟩
  have hfin : s.finished = List.range s.finished.length := by
    have hpre : s.finished <+: s.started := ⟨s.current.toList, h2⟩
    have : s.finished <+: List.range s.started.length := hst ▸ hpre
    exact prefix_range_eq this
  refine ⟨h1, hst, hfin, h2, hst ▸ List.nodup_range s.started.length, h3, ?_⟩
  intro t hts
  have hlen : s.started.length ≤ s.finished.length + 1 := by
    have hl := congrArg List.length h2
    simp only [List.length_append] at hl
    have hc1 : s.current.toList.length ≤ 1 := by
      cases s.current <;> simp
    omega
  rw [hst, List.mem_range] at hts
  rw [hfin, List.mem_range]
  omega

/-- Witness for C2: a concrete interleaved trace — enqueue, begin, enqueue
during processing, finish — reaches a state satisfying the contract. -/
theorem taskQueue_fifo_serial_witness :
    (⟨[1], 2, true, none, [0], [0], 0, [0, 0]⟩ : WorkerState).started =
      List.range 1 ∧
    (⟨[1], 2, true, none, [0], [0], 0, [0, 0]⟩ : WorkerState).finished ++
      (⟨[1], 2, true, none, [0], [0], 0, [0, 0]⟩ : WorkerState).current.toList =
      (⟨[1], 2, true, none, [0], [0], 0, [0, 0]⟩ : WorkerState).started := by
  have hreach : WorkerReach ⟨[1], 2, true, none, [0], [0], 0, [0, 0]⟩ := by
    refine Relation.ReflTransGen.tail (Relation.ReflTransGen.tail
      (Relation.ReflTransGen.tail (Relation.ReflTransGen.tail
        Relation.ReflTransGen.refl
        (WorkerStep.addTask WorkerState.init))
        (WorkerStep.beginTask _ 0 [] rfl rfl rfl))
      (WorkerStep.addTask _))
      (WorkerStep.finishTask _ 0 rfl)
  have h := taskQueue_fifo_serial _ hreach
  exact ⟨h.2.1, h.2.2.2.1⟩

/-! ## Authorization header construction (C5) -/

/-- **C5 counterexample**: with `schemes = ["Bearer"]` and an empty (absent)
token, `sendWebhook` still adds an `Authorization: Bearer ` header — the
code tests only the scheme list, never the token — so the outbound request
does not carry only `Content-Type`, contradicting the claimed
"iff ... AND a token is present". -/
theorem sendWebhook_auth_header_counterexample :
    ("Authorization", "Bearer ") ∈
      webhookHeaders ⟨"https://w", "", ["Bearer"]⟩ ∧
    ¬ ((⟨"https://w", "", ["Bearer"]⟩ : WebhookConfig).token ≠ "") ∧
    webhookHeaders ⟨"https://w", "", ["Bearer"]⟩ ≠
      [("Content-Type", "application/json")] := by
  refine ⟨?_, ?_, ?_⟩ <;> decide

/-- **C5 (amended)**: `sendWebhook` adds an `Authorization: Bearer <token>`
header if and only if the configuration's scheme list contains `"Bearer"`,
regardless of whether a token is present; when the scheme list does not
contain `"Bearer"`, the outbound request carries only
`Content-Type: application/json`. Every request of a `sendWebhook` call
sequence uses exactly these headers. -/
theorem sendWebhook_auth_header (cfg : WebhookConfig) :
    ((∃ v, ("Authorization", v) ∈ webhookHeaders cfg) ↔
      cfg.schemes.contains "Bearer" = true) ∧
    (cfg.schemes.contains "Bearer" = true →
      ("Authorization", "Bearer " ++ cfg.token) ∈ webhookHeaders cfg) ∧
    (cfg.schemes.contains "Bearer" = false →
      webhookHeaders cfg = [("Content-Type", "application/json")]) ∧
    (∀ {P : Type} (payload : P) (attempts : Nat → AttemptResult) (mr : Nat)
        (o : SendOutcome P),
      sendWebhook cfg payload attempts mr = .ok o →
      ∀ q ∈ o.requests, q.headers = webhookHeaders cfg) := by
  refine ⟨?_, ?_, ?_, ?_⟩
  · constructor
    · rintro ⟨v, hv⟩
      by_cases hb : "Bearer" ∈ cfg.schemes
      · simpa using hb
      · simp [webhookHeaders, hb] at hv
    · intro hb
      have hb' : "Bearer" ∈ cfg.schemes := by simpa using hb
      exact ⟨"Bearer " ++ cfg.token, by simp [webhookHeaders, hb']⟩
  · intro hb
    have hb' : "Bearer" ∈ cfg.schemes := by simpa using hb
    simp [webhookHeaders, hb']
  · intro hb
    have hb' : "Bearer" ∉ cfg.schemes := by simpa using hb
    simp [webhookHeaders, hb']
  · intro P payload attempts mr o h q hq
    obtain ⟨o', ho', _, _, h3, _⟩ :=
      sendWebhookGo_spec cfg payload attempts mr 0
    rw [sendWebhook, ho'] at h
    obtain rfl : o' = o := Except.ok.inj h
    rw [h3 q hq]

/-- Witness for the amended C5: both directions at concrete configs. -/
theorem sendWebhook_auth_header_witness :
    ("Authorization", "Bearer tok") ∈
      webhookHeaders ⟨"https://w", "tok", ["Bearer"]⟩ ∧
    webhookHeaders ⟨"https://w", "tok", []⟩ =
      [("Content-Type", "application/json")] :=
  ⟨(sendWebhook_auth_header ⟨"https://w", "tok", ["Bearer"]⟩).2.1 (by decide),
   (sendWebhook_auth_header ⟨"https://w", "tok", []⟩).2.2.1 (by decide)⟩

/-! ## JSON-RPC route handlers (`a2aAgentRoute` from
`forexsage-a2a-route.ts`, `completeForexAnalysisA2ARoute` from
`complete-forex-analysis-a2a-route.ts`) -/

/-- A JSON-RPC request id as it appears in the parsed body. -/
inductive JsonId where
  | str (s : String)
  | num (n : Int)
  | null
  deriving Repr, DecidableEq

/-- JavaScript truthiness of the destructured `id` field (`!requestId`):
absent, `null`, the empty string and `0` are falsy. -/
def idTruthy : Option JsonId → Bool
  | none => false
  | some .null => false
  | some (.str s) => !(s == "")
  | some (.num n) => !(n == 0)

/-- `requestId || null`: the id echoed into an error body. -/
def echoId (i : Option JsonId) : JsonId :=
  if idTruthy i then i.getD .null else .null

/-- Truthiness of an optional string field (e.g. `webhookConfig?.url`,
`triggerData.sourceCurrency`). -/
def strTruthy : Option String → Bool
  | none => false
  | some s => !(s == "")

/-- Parsed request body of the agent route, after destructuring:
`jsonrpc`, `id`, `configuration.blocking !== false`, and
`configuration.pushNotificationConfig?.url`. -/
structure A2ARequestBody where
  jsonrpc : Option String
  id : Option JsonId
  blocking : Bool
  webhookUrl : Option String
  deriving Repr, DecidableEq

/-- A JSON-RPC error body: `{ jsonrpc: "2.0", id, error: { code, message,
data?: { details } } }`. -/
structure RpcError where
  id : JsonId
  code : Int
  message : String
  details : Option String
  deriving Repr, DecidableEq

/-- Response body: a result envelope (id, `status.state`, primary response
text) or an error body. -/
inductive A2AResponseBody where
  | ok (id : JsonId) (state : String) (text : Option String)
  | err (e : RpcError)
  deriving Repr, DecidableEq

/-- `c.json(body, status)`. -/
structure HttpJsonResponse where
  status : Nat
  body : A2AResponseBody
  deriving Repr, DecidableEq

/-- Behaviour of `agent.generate` (resp. `workflow.execute`): a produced
text, or a thrown error. -/
inductive AgentBehavior where
  | ok (text : String)
  | throws (msg : String)
  deriving Repr, DecidableEq

/-- The error code carried by a response, if it is an error response. -/
def respErrorCode : HttpJsonResponse → Option Int
  | ⟨_, .err e⟩ => some e.code
  | _ => none

/-- The handler of `a2aAgentRoute` (`POST /a2a/agent/:agentId`).
`agents agentId` is `mastra.getAgent`: `none` when unresolvable, otherwise
the behaviour of the blocking `agent.generate` call. `body` is the result
of `await c.req.json()`, `.error` when parsing threw (taken by the outer
catch). In the non-blocking branch the handler returns the immediate
`working` envelope (the background job is the drain model above). -/
def a2aAgentHandler (agents : String → Option AgentBehavior)
    (agentId : String) (body : Except String A2ARequestBody) :
    HttpJsonResponse :=
  match body with
  | .error m => ⟨500, .err ⟨.null, -32603, "Internal error", some m⟩⟩
  | .ok req =>
    if ¬(req.jsonrpc = some "2.0" ∧ idTruthy req.id = true) then
      ⟨400, .err ⟨echoId req.id, -32600,
        "Invalid Request: jsonrpc must be \"2.0\" and id is required",
        none⟩⟩
    else
      match agents agentId with
      | none =>
        ⟨404, .err ⟨req.id.getD .null, -32602,
          "Agent '" ++ agentId ++ "' not found", none⟩⟩
      | some behavior =>
        if req.blocking = false ∧ strTruthy req.webhookUrl = true then
          ⟨200, .ok (req.id.getD .null) "working" none⟩
        else
          match behavior with
          | .ok text =>
            ⟨200, .ok (req.id.getD .null) "completed" (some text)⟩
          | .throws m =>
            ⟨500, .err ⟨.null, -32603, "Internal error", some m⟩⟩

/-- Parsed request body of the workflow route: `jsonrpc`, `id`, whether
`params.triggerData` is present (truthy), and its two required fields. -/
structure WorkflowRequestBody where
  jsonrpc : Option String
  id : Option JsonId
  hasTriggerData : Bool
  sourceCurrency : Option String
  targetCurrency : Option String
  deriving Repr, DecidableEq

/-- The handler of `completeForexAnalysisA2ARoute`
(`POST /a2a/workflow/complete-forex-analysis`). `workflowKnown` is whether
`mastra.getWorkflow('complete-forex-analysis')` resolves; `wf` is the
behaviour of `workflow.execute`. -/
def completeForexHandler (workflowKnown : Bool) (wf : AgentBehavior)
    (body : Except String WorkflowRequestBody) : HttpJsonResponse :=
  match body with
  | .error m => ⟨500, .err ⟨.null, -32603, "Internal error", some m⟩⟩
  | .ok req =>
    if ¬(req.jsonrpc = some "2.0" ∧ idTruthy req.id = true) then
      ⟨400, .err ⟨echoId req.id, -32600,
        "Invalid Request: jsonrpc must be \"2.0\" and id is required",
        none⟩⟩
    else if workflowKnown = false then
      ⟨404, .err ⟨req.id.getD .null, -32602,
        "Complete Forex Analysis workflow not found", none⟩⟩
    else if req.hasTriggerData = false then
      ⟨400, .err ⟨req.id.getD .null, -32602,
        "Invalid params: triggerData is required", none⟩⟩
    else if ¬(strTruthy req.sourceCurrency = true ∧
        strTruthy req.targetCurrency = true) then
      ⟨400, .err ⟨req.id.getD .null, -32602,
        "Invalid params: sourceCurrency and targetCurrency are required",
        none⟩⟩
    else
      match wf with
      | .ok text => ⟨200, .ok (req.id.getD .null) "completed" (some text)⟩
      | .throws m => ⟨500, .err ⟨.null, -32603, "Internal error", some m⟩⟩

/-- The error body's id, if the response is an error response. -/
def respErrId : HttpJsonResponse → Option JsonId
  | ⟨_, .err e⟩ => some e.id
  | _ => none

/-- The error body's `data.details`, if any. -/
def respErrDetails : HttpJsonResponse → Option String
  | ⟨_, .err e⟩ => e.details
  | _ => none

/-- **C7 counterexample**: a request whose version tag is `"1.0"` (with a
perfectly good id) naming an unresolvable agent is answered with
`-32600` / HTTP 400 — validation runs before agent resolution — not with
`-32602` / HTTP 404 as the claim requires for every request naming an
unresolvable agent. -/
theorem route_unknown_agent_counterexample :
    (a2aAgentHandler (fun _ => none) "ghost"
        (.ok ⟨some "1.0", some (.str "req-1"), true, none⟩)).status = 400 ∧
    respErrorCode (a2aAgentHandler (fun _ => none) "ghost"
        (.ok ⟨some "1.0", some (.str "req-1"), true, none⟩)) =
      some (-32600) ∧
    ¬ ((a2aAgentHandler (fun _ => none) "ghost"
          (.ok ⟨some "1.0", some (.str "req-1"), true, none⟩)).status = 404 ∧
       respErrorCode (a2aAgentHandler (fun _ => none) "ghost"
          (.ok ⟨some "1.0", some (.str "req-1"), true, none⟩)) =
        some (-32602)) := by
  refine ⟨?_, ?_, ?_⟩ <;> decide

/-- **C7 (amended)**: every request whose version tag is not exactly
`"2.0"` or whose id is not truthy is answered `-32600` / HTTP 400; and
every *well-formed* request (version tag `"2.0"`, truthy id) naming an
agent or workflow that cannot be resolved is answered `-32602` /
HTTP 404. (A malformed request naming an unknown agent gets `-32600`/400:
validation precedes resolution.) -/
theorem route_validation (agents : String → Option AgentBehavior)
    (agentId : String) (req : A2ARequestBody)
    (workflowKnown : Bool) (wf : AgentBehavior)
    (wreq : WorkflowRequestBody) :
    (¬(req.jsonrpc = some "2.0" ∧ idTruthy req.id = true) →
      (a2aAgentHandler agents agentId (.ok req)).status = 400 ∧
      respErrorCode (a2aAgentHandler agents agentId (.ok req)) =
        some (-32600)) ∧
    (req.jsonrpc = some "2.0" → idTruthy req.id = true →
      agents agentId = none →
      (a2aAgentHandler agents agentId (.ok req)).status = 404 ∧
      respErrorCode (a2aAgentHandler agents agentId (.ok req)) =
        some (-32602)) ∧
    (¬(wreq.jsonrpc = some "2.0" ∧ idTruthy wreq.id = true) →
      (completeForexHandler workflowKnown wf (.ok wreq)).status = 400 ∧
      respErrorCode (completeForexHandler workflowKnown wf (.ok wreq)) =
        some (-32600)) ∧
    (wreq.jsonrpc = some "2.0" → idTruthy wreq.id = true →
      workflowKnown = false →
      (completeForexHandler workflowKnown wf (.ok wreq)).status = 404 ∧
      respErrorCode (completeForexHandler workflowKnown wf (.ok wreq)) =
        some (-32602)) := by
  refine ⟨?_, ?_, ?_, ?_⟩
  · intro h
    simp [a2aAgentHandler, h, respErrorCode]
  · intro h1 h2 h3
    simp [a2aAgentHandler, h1, h2, h3, respErrorCode]
  · intro h
    simp [completeForexHandler, h, respErrorCode]
  · intro h1 h2 h3
    simp [completeForexHandler, h1, h2, h3, respErrorCode]

/-- Witness for the amended C7: a missing id, and a well-formed request
for an unknown agent. -/
theorem route_validation_witness :
    (a2aAgentHandler (fun _ => some (.ok "hi")) "forexSageAgent"
        (.ok ⟨some "2.0", none, true, none⟩)).status = 400 ∧
    (a2aAgentHandler (fun _ => none) "ghost"
        (.ok ⟨some "2.0", some (.str "req-1"), true, none⟩)).status = 404 ∧
    (completeForexHandler false (.ok "hi")
        (.ok ⟨some "2.0", some (.str "req-2"), true, some "USD",
          some "NGN"⟩)).status = 404 :=
  ⟨((route_validation (fun _ => some (.ok "hi")) "forexSageAgent"
      ⟨some "2.0", none, true, none⟩ true (.ok "hi")
      ⟨some "2.0", some (.str "x"), true, none, none⟩).1
      (by simp [idTruthy])).1,
   ((route_validation (fun _ => none) "ghost"
      ⟨some "2.0", some (.str "req-1"), true, none⟩ true (.ok "hi")
      ⟨some "2.0", some (.str "x"), true, none, none⟩).2.1
      rfl (by decide) rfl).1,
   ((route_validation (fun _ => none) "ghost"
      ⟨some "2.0", some (.str "req-1"), true, none⟩ false (.ok "hi")
      ⟨some "2.0", some (.str "req-2"), true, some "USD",
        some "NGN"⟩).2.2.2
      rfl (by decide) rfl).1⟩

/-- **C9 counterexample**: a blocking request with id `"req-1"` whose
agent invocation throws `"boom"` is answered with `-32603` and the message
in `data.details`, but the response body's id is `null`, not the original
request id. -/
theorem route_internal_error_counterexample :
    a2aAgentHandler (fun _ => some (.throws "boom")) "forexSageAgent"
        (.ok ⟨some "2.0", some (.str "req-1"), true, none⟩) =
      ⟨500, .err ⟨.null, -32603, "Internal error", some "boom"⟩⟩ ∧
    respErrId (a2aAgentHandler (fun _ => some (.throws "boom"))
        "forexSageAgent" (.ok ⟨some "2.0", some (.str "req-1"), true, none⟩))
      ≠ some (.str "req-1") := by
  refine ⟨?_, ?_⟩ <;> decide

/-- **C9 (amended)**: when a blocking-path request raises an uncaught
exception, the route handler returns a JSON-RPC error with code `-32603`,
HTTP status 500, and the exception's message in `data.details` — but the
response body's id field is `null` (the request id is out of scope in the
catch block), not the original request's id. Likewise for the workflow
route. -/
theorem route_internal_error_null_id (agents : String → Option AgentBehavior)
    (agentId : String) (req : A2ARequestBody) (m : String)
    (h1 : req.jsonrpc = some "2.0") (h2 : idTruthy req.id = true)
    (h3 : agents agentId = some (.throws m))
    (h4 : ¬(req.blocking = false ∧ strTruthy req.webhookUrl = true)) :
    a2aAgentHandler agents agentId (.ok req) =
      ⟨500, .err ⟨.null, -32603, "Internal error", some m⟩⟩ ∧
    (∀ (wreq : WorkflowRequestBody) (m' : String),
      wreq.jsonrpc = some "2.0" → idTruthy wreq.id = true →
      wreq.hasTriggerData = true → strTruthy wreq.sourceCurrency = true →
      strTruthy wreq.targetCurrency = true →
      completeForexHandler true (.throws m') (.ok wreq) =
        ⟨500, .err ⟨.null, -32603, "Internal error", some m'⟩⟩) := by
  constructor
  · simp [a2aAgentHandler, h1, h2, h3, h4]
  · intro wreq m' w1 w2 w3 w4 w5
    simp [completeForexHandler, w1, w2, w3, w4, w5]

/-- Witness for the amended C9 at concrete requests. -/
theorem route_internal_error_null_id_witness :
    a2aAgentHandler (fun _ => some (.throws "boom")) "forexSageAgent"
        (.ok ⟨some "2.0", some (.str "req-7"), true, none⟩) =
      ⟨500, .err ⟨.null, -32603, "Internal error", some "boom"⟩⟩ ∧
    completeForexHandler true (.throws "wf-fail")
        (.ok ⟨some "2.0", some (.str "req-8"), true, some "USD",
          some "NGN"⟩) =
      ⟨500, .err ⟨.null, -32603, "Internal error", some "wf-fail"⟩⟩ :=
  ⟨(route_internal_error_null_id (fun _ => some (.throws "boom"))
      "forexSageAgent" ⟨some "2.0", some (.str "req-7"), true, none⟩ "boom"
      rfl (by decide) rfl (by decide)).1,
   (route_internal_error_null_id (fun _ => some (.throws "boom"))
      "forexSageAgent" ⟨some "2.0", some (.str "req-7"), true, none⟩ "boom"
      rfl (by decide) rfl (by decide)).2
      ⟨some "2.0", some (.str "req-8"), true, some "USD", some "NGN"⟩
      "wf-fail" rfl (by decide) rfl (by decide) (by decide)⟩

/-! ## Pending-request correlation (`WebhookService.registerPendingRequest`
/ `resolvePendingRequest` / `rejectPendingRequest`).

The `Map<string, { resolve, reject, timeout }>` is modelled as an
insertion-ordered association list from request id to a registration
index (the index identifies the stored resolve/reject callbacks and the
`setTimeout` handle created by that registration). Scheduled timeouts live
in `timers`; each settlement (a resolve/reject callback firing, or the
timeout callback rejecting) is recorded in `settles`, tagged with the
registration index whose callbacks fired. -/

/-- How a registration's callbacks were settled. -/
inductive SettleKind where
  | resolved
  | rejected
  | timedOut
  deriving Repr, DecidableEq

/-- State of the webhook service's pending-request machinery, plus the
settlement history and a logical clock for `setTimeout`. -/
structure PendingSvc where
  now : Nat
  pending : List (String × Nat)
  timers : List (Nat × String × Nat)
  settles : List (Nat × SettleKind)
  regCount : Nat
  deriving Repr, DecidableEq

def PendingSvc.init : PendingSvc := ⟨0, [], [], [], 0⟩

/-- JS `Map.prototype.set`: replace in place, else append. -/
def mapSet : List (String × Nat) → String → Nat → List (String × Nat)
  | [], k, v => [(k, v)]
  | (k', v') :: rest, k, v =>
    if k' = k then (k, v) :: rest else (k', v') :: mapSet rest k v

/-- JS `Map.prototype.get`. -/
def mapGet : List (String × Nat) → String → Option Nat
  | [], _ => none
  | (k', v') :: rest, k => if k' = k then some v' else mapGet rest k

/-- JS `Map.prototype.delete`. -/
def mapDelete : List (String × Nat) → String → List (String × Nat)
  | [], _ => []
  | (k', v') :: rest, k =>
    if k' = k then rest else (k', v') :: mapDelete rest k

lemma mapGet_some_mem {m : List (String × Nat)} {k : String} {v : Nat}
    (h : mapGet m k = some v) : (k, v) ∈ m := by
  induction m with
  | nil => exact absurd h (by simp [mapGet])
  | cons p rest ih =>
    obtain ⟨k', v'⟩ := p
    by_cases hk : k' = k
    · simp only [mapGet, if_pos hk] at h
      obtain rfl : v' = v := Option.some.inj h
      subst hk
      exact List.mem_cons_self _ _
    · simp only [mapGet, if_neg hk] at h
      exact List.mem_cons_of_mem _ (ih h)

lemma mapGet_eq_none_iff {m : List (String × Nat)} {k : String} :
    mapGet m k = none ↔ ∀ p ∈ m, p.1 ≠ k := by
  induction m with
  | nil => simp [mapGet]
  | cons p rest ih =>
    obtain ⟨k', v'⟩ := p
    by_cases hk : k' = k
    · simp [mapGet, hk]
    · simp only [mapGet, if_neg hk, ih, List.mem_cons]
      constructor
      · rintro h q (rfl | hq)
        · exact hk
        · exact h q hq
      · intro h q hq
        exact h q (Or.inr hq)

lemma mem_mapSet {m : List (String × Nat)} {k : String} {v : Nat}
    {p : String × Nat} (hp : p ∈ mapSet m k v) : p = (k, v) ∨ p ∈ m := by
  induction m with
  | nil => simpa [mapSet] using hp
  | cons q rest ih =>
    obtain ⟨k', v'⟩ := q
    by_cases hk : k' = k
    · simp only [mapSet, if_pos hk] at hp
      rcases List.mem_cons.mp hp with rfl | hp
      · exact Or.inl rfl
      · exact Or.inr (List.mem_cons_of_mem _ hp)
    · simp only [mapSet, if_neg hk] at hp
      rcases List.mem_cons.mp hp with rfl | hp
      · exact Or.inr (List.mem_cons_self _ _)
      · rcases ih hp with h | h
        · exact Or.inl h
        · exact Or.inr (List.mem_cons_of_mem _ h)

lemma mem_mapSet_of_ne {m : List (String × Nat)} {k : String} {v : Nat}
    {p : String × Nat} (hp : p ∈ m) (hne : p.1 ≠ k) : p ∈ mapSet m k v := by
  induction m with
  | nil => exact absurd hp (List.not_mem_nil p)
  | cons q rest ih =>
    obtain ⟨k', v'⟩ := q
    rcases List.mem_cons.mp hp with rfl | hp
    · have hk : k' ≠ k := hne
      simp only [mapSet, if_neg hk]
      exact List.mem_cons_self _ _
    · by_cases hk : k' = k
      · simp only [mapSet, if_pos hk]
        exact List.mem_cons_of_mem _ hp
      · simp only [mapSet, if_neg hk]
        exact List.mem_cons_of_mem _ (ih hp)

lemma mem_mapSet_resolve {m : List (String × Nat)} {k : String} {v : Nat}
    {p : String × Nat} (hnd : (m.map Prod.fst).Nodup)
    (hp : p ∈ mapSet m k v) : p = (k, v) ∨ (p ∈ m ∧ p.1 ≠ k) := by
  induction m with
  | nil => exact Or.inl (by simpa [mapSet] using hp)
  | cons q rest ih =>
    obtain ⟨k', v'⟩ := q
    simp only [List.map_cons, List.nodup_cons] at hnd
    by_cases hk : k' = k
    · simp only [mapSet, if_pos hk] at hp
      rcases List.mem_cons.mp hp with rfl | hp
      · exact Or.inl rfl
      · refine Or.inr ⟨List.mem_cons_of_mem _ hp, ?_⟩
        intro he
        exact hnd.1 (hk ▸ he ▸ List.mem_map_of_mem Prod.fst hp)
    · simp only [mapSet, if_neg hk] at hp
      rcases List.mem_cons.mp hp with rfl | hp
      · exact Or.inr ⟨List.mem_cons_self _ _, hk⟩
      · rcases ih hnd.2 hp with h | h
        · exact Or.inl h
        · exact Or.inr ⟨List.mem_cons_of_mem _ h.1, h.2⟩

lemma mapSet_keys_nodup {m : List (String × Nat)} {k : String} {v : Nat}
    (hnd : (m.map Prod.fst).Nodup) :
    ((mapSet m k v).map Prod.fst).Nodup := by
  induction m with
  | nil => simp [mapSet]
  | cons q rest ih =>
    obtain ⟨k', v'⟩ := q
    simp only [List.map_cons, List.nodup_cons] at hnd
    by_cases hk : k' = k
    · simp only [mapSet, if_pos hk, List.map_cons, List.nodup_cons]
      exact ⟨fun hm => hnd.1 (hk ▸ hm), hnd.2⟩
    · simp only [mapSet, if_neg hk, List.map_cons, List.nodup_cons]
      refine ⟨?_, ih hnd.2⟩
      intro hm
      rcases List.mem_map.mp hm with ⟨p, hp, hp1⟩
      rcases mem_mapSet hp with rfl | hp'
      · exact hk hp1.symm
      · exact hnd.1 (hp1 ▸ List.mem_map_of_mem Prod.fst hp')

lemma mapDelete_sublist (m : List (String × Nat)) (k : String) :
    (mapDelete m k).Sublist m := by
  induction m with
  | nil => simp [mapDelete]
  | cons q rest ih =>
    obtain ⟨k', v'⟩ := q
    by_cases hk : k' = k
    · simp only [mapDelete, if_pos hk]
      exact List.sublist_cons_self _ _
    · simp only [mapDelete, if_neg hk]
      exact ih.cons₂ _

lemma mem_mapDelete {m : List (String × Nat)} {k : String}
    {p : String × Nat} (hnd : (m.map Prod.fst).Nodup)
    (hp : p ∈ mapDelete m k) : p ∈ m ∧ p.1 ≠ k := by
  induction m with
  | nil => exact absurd hp (by simp [mapDelete])
  | cons q rest ih =>
    obtain ⟨k', v'⟩ := q
    simp only [List.map_cons, List.nodup_cons] at hnd
    by_cases hk : k' = k
    · simp only [mapDelete, if_pos hk] at hp
      refine ⟨List.mem_cons_of_mem _ hp, ?_⟩
      intro he
      exact hnd.1 (hk ▸ he ▸ List.mem_map_of_mem Prod.fst hp)
    · simp only [mapDelete, if_neg hk] at hp
      rcases List.mem_cons.mp hp with rfl | hp
      · exact ⟨List.mem_cons_self _ _, hk⟩
      · obtain ⟨h1, h2⟩ := ih hnd.2 hp
        exact ⟨List.mem_cons_of_mem _ h1, h2⟩

/-- `registerPendingRequest(requestId, resolve, reject, timeoutMs = 60000)`:
stores the entry under `requestId` (a `Map.set`, replacing any previous
entry without cancelling its timer — as in the source) and schedules a
timeout for `now + timeoutMs`. -/
def registerPendingRequest (s : PendingSvc) (id : String)
    (timeoutMs : Nat) : PendingSvc :=
  { s with pending := mapSet s.pending id s.regCount,
           timers := s.timers ++ [(s.regCount, id, s.now + timeoutMs)],
           regCount := s.regCount + 1 }

/-- `resolvePendingRequest(requestId, result)`: if an entry exists, cancel
its stored timeout, delete the entry, invoke its `resolve` and return
`true`; otherwise return `false` with no state change. -/
def resolvePendingRequest (s : PendingSvc) (id : String) :
    Bool × PendingSvc :=
  match mapGet s.pending id with
  | some r =>
    (true, { s with timers := s.timers.filter (fun tm => !(tm.1 == r)),
                    pending := mapDelete s.pending id,
                    settles := s.settles ++ [(r, .resolved)] })
  | none => (false, s)

/-- `rejectPendingRequest(requestId, error)`: symmetric to
`resolvePendingRequest`. -/
def rejectPendingRequest (s : PendingSvc) (id : String) :
    Bool × PendingSvc :=
  match mapGet s.pending id with
  | some r =>
    (true, { s with timers := s.timers.filter (fun tm => !(tm.1 == r)),
                    pending := mapDelete s.pending id,
                    settles := s.settles ++ [(r, .rejected)] })
  | none => (false, s)

/-- Event-loop transitions of the pending-request machinery. `fireTimer`
is the scheduled `setTimeout` callback: it deletes whatever entry
currently sits under the id and rejects with the *registration's* own
reject callback (the closure), exactly as in the source. `tick` advances
time, but never past a due timer (timer callbacks run when due). -/
inductive PendingStep : PendingSvc → PendingSvc → Prop where
  | register (s : PendingSvc) (id : String) (timeoutMs : Nat) :
      PendingStep s (registerPendingRequest s id timeoutMs)
  | resolveCall (s : PendingSvc) (id : String) :
      PendingStep s (resolvePendingRequest s id).2
  | rejectCall (s : PendingSvc) (id : String) :
      PendingStep s (rejectPendingRequest s id).2
  | fireTimer (s : PendingSvc) (r : Nat) (id : String) (dl : Nat) :
      (r, id, dl) ∈ s.timers → dl ≤ s.now →
      PendingStep s
        { s with timers := s.timers.filter (fun tm => !(tm.1 == r)),
                 pending := mapDelete s.pending id,
                 settles := s.settles ++ [(r, .timedOut)] }
  | tick (s : PendingSvc) :
      (∀ tm ∈ s.timers, s.now < tm.2.2) →
      PendingStep s { s with now := s.now + 1 }

def PendingReach (s : PendingSvc) : Prop :=
  Relation.ReflTransGen PendingStep PendingSvc.init s

/-- The inductive invariant: keys are unique; registration indices are
fresh and unique across the map, the timers and the settlement history;
every map entry still has its own scheduled, unexpired timer; a timer's
registration index determines the id it guards; and a settled
registration has neither a live timer nor a map entry. -/
def PendingInv (s : PendingSvc) : Prop :=
  (s.pending.map Prod.fst).Nodup ∧
  (∀ p ∈ s.pending, p.2 < s.regCount) ∧
  (∀ tm ∈ s.timers, tm.1 < s.regCount) ∧
  (s.timers.map (fun tm => tm.1)).Nodup ∧
  (∀ p ∈ s.pending, ∃ dl, (p.2, p.1, dl) ∈ s.timers ∧ s.now ≤ dl) ∧
  (∀ tm ∈ s.timers, ∀ p ∈ s.pending, p.2 = tm.1 → p.1 = tm.2.1) ∧
  (∀ x ∈ s.settles,
    (∀ tm ∈ s.timers, tm.1 ≠ x.1) ∧ (∀ p ∈ s.pending, p.2 ≠ x.1)) ∧
  (s.settles.map Prod.fst).Nodup ∧
  (∀ x ∈ s.settles, x.1 < s.regCount)

lemma pendingInv_init : PendingInv PendingSvc.init := by
  refine ⟨by simp [PendingSvc.init], ?_, ?_, by simp [PendingSvc.init], ?_,
    ?_, ?_, by simp [PendingSvc.init], ?_⟩ <;>
    intro p hp <;> exact absurd hp (by simp [PendingSvc.init])

lemma filter_ne_regIdx {l : List (Nat × String × Nat)} {r : Nat}
    {tm : Nat × String × Nat}
    (h : tm ∈ l.filter (fun tm => !(tm.1 == r))) : tm ∈ l ∧ tm.1 ≠ r := by
  have h' := List.mem_filter.mp h
  exact ⟨h'.1, by simpa using h'.2⟩

lemma mem_filter_ne {l : List (Nat × String × Nat)} {r : Nat}
    {tm : Nat × String × Nat} (h1 : tm ∈ l) (h2 : tm.1 ≠ r) :
    tm ∈ l.filter (fun tm => !(tm.1 == r)) :=
  List.mem_filter.mpr ⟨h1, by simpa using h2⟩

/-- Settling a found entry (by `resolvePendingRequest` or
`rejectPendingRequest`) preserves the invariant. -/
lemma pendingInv_settle {s : PendingSvc} (hs : PendingInv s) (id : String)
    (r : Nat) (hr : mapGet s.pending id = some r) (k : SettleKind) :
    PendingInv { s with
      timers := s.timers.filter (fun tm => !(tm.1 == r)),
      pending := mapDelete s.pending id,
      settles := s.settles ++ [(r, k)] } := by
  obtain ⟨i1, i2, i3, i4, i5, i6, i7, i8, i9⟩ := hs
  have hmem : (id, r) ∈ s.pending := mapGet_some_mem hr
  obtain ⟨dl0, hdl0, _⟩ := i5 (id, r) hmem
  have hval : ∀ p ∈ s.pending, p.2 = r → p.1 = id := by
    intro p hp hpr
    exact i6 (r, id, dl0) hdl0 p hp hpr
  refine ⟨?_, ?_, ?_, ?_, ?_, ?_, ?_, ?_, ?_⟩
  · exact i1.sublist ((mapDelete_sublist s.pending id).map Prod.fst)
  · intro p hp
    exact i2 p (mem_mapDelete i1 hp).1
  · intro tm htm
    exact i3 tm (filter_ne_regIdx htm).1
  · exact i4.sublist ((List.filter_sublist _).map _)
  · intro p hp
    obtain ⟨hpm, hpne⟩ := mem_mapDelete i1 hp
    obtain ⟨dl, hdl, hnow⟩ := i5 p hpm
    have hpr : p.2 ≠ r := fun he => hpne (hval p hpm he)
    exact ⟨dl, mem_filter_ne hdl hpr, hnow⟩
  · intro tm htm p hp
    exact i6 tm (filter_ne_regIdx htm).1 p (mem_mapDelete i1 hp).1
  · intro x hx
    rcases List.mem_append.mp hx with hx | hx
    · obtain ⟨ha, hb⟩ := i7 x hx
      exact ⟨fun tm htm => ha tm (filter_ne_regIdx htm).1,
        fun p hp => hb p (mem_mapDelete i1 hp).1⟩
    · obtain rfl : x = (r, k) := List.mem_singleton.mp hx
      refine ⟨fun tm htm => (filter_ne_regIdx htm).2, ?_⟩
      intro p hp he
      obtain ⟨hpm, hpne⟩ := mem_mapDelete i1 hp
      exact hpne (hval p hpm he)
  · simp only [List.map_append, List.map_cons, List.map_nil]
    rw [List.nodup_append]
    refine ⟨i8, by simp, ?_⟩
    intro a ha hb
    simp only [List.mem_singleton] at hb
    rcases List.mem_map.mp ha with ⟨x, hx, hx1⟩
    exact (i7 x hx).2 (id, r) hmem (hb ▸ hx1).symm
  · intro x hx
    rcases List.mem_append.mp hx with hx | hx
    · exact i9 x hx
    · obtain rfl : x = (r, k) := List.mem_singleton.mp hx
      exact i2 (id, r) hmem

/-- A timeout callback firing preserves the invariant. -/
lemma pendingInv_fire {s : PendingSvc} (hs : PendingInv s) {r : Nat}
    {id : String} {dl : Nat} (ht : (r, id, dl) ∈ s.timers) :
    PendingInv { s with
      timers := s.timers.filter (fun tm => !(tm.1 == r)),
      pending := mapDelete s.pending id,
      settles := s.settles ++ [(r, .timedOut)] } := by
  obtain ⟨i1, i2, i3, i4, i5, i6, i7, i8, i9⟩ := hs
  have hval : ∀ p ∈ s.pending, p.2 = r → p.1 = id := by
    intro p hp hpr
    exact i6 (r, id, dl) ht p hp hpr
  refine ⟨?_, ?_, ?_, ?_, ?_, ?_, ?_, ?_, ?_⟩
  · exact i1.sublist ((mapDelete_sublist s.pending id).map Prod.fst)
  · intro p hp
    exact i2 p (mem_mapDelete i1 hp).1
  · intro tm htm
    exact i3 tm (filter_ne_regIdx htm).1
  · exact i4.sublist ((List.filter_sublist _).map _)
  · intro p hp
    obtain ⟨hpm, hpne⟩ := mem_mapDelete i1 hp
    obtain ⟨dl', hdl', hnow⟩ := i5 p hpm
    have hpr : p.2 ≠ r := fun he => hpne (hval p hpm he)
    exact ⟨dl', mem_filter_ne hdl' hpr, hnow⟩
  · intro tm htm p hp
    exact i6 tm (filter_ne_regIdx htm).1 p (mem_mapDelete i1 hp).1
  · intro x hx
    rcases List.mem_append.mp hx with hx | hx
    · obtain ⟨ha, hb⟩ := i7 x hx
      exact ⟨fun tm htm => ha tm (filter_ne_regIdx htm).1,
        fun p hp => hb p (mem_mapDelete i1 hp).1⟩
    · obtain rfl : x = (r, .timedOut) := List.mem_singleton.mp hx
      refine ⟨fun tm htm => (filter_ne_regIdx htm).2, ?_⟩
      intro p hp he
      obtain ⟨hpm, hpne⟩ := mem_mapDelete i1 hp
      exact hpne (hval p hpm he)
  · simp only [List.map_append, List.map_cons, List.map_nil]
    rw [List.nodup_append]
    refine ⟨i8, by simp, ?_⟩
    intro a ha hb
    simp only [List.mem_singleton] at hb
    rcases List.mem_map.mp ha with ⟨x, hx, hx1⟩
    exact (i7 x hx).1 (r, id, dl) ht (hb ▸ hx1).symm
  · intro x hx
    rcases List.mem_append.mp hx with hx | hx
    · exact i9 x hx
    · obtain rfl : x = (r, SettleKind.timedOut) := List.mem_singleton.mp hx
      exact i3 (r, id, dl) ht

/-- Registration preserves the invariant. -/
lemma pendingInv_register {s : PendingSvc} (hs : PendingInv s)
    (id : String) (timeoutMs : Nat) :
    PendingInv (registerPendingRequest s id timeoutMs) := by
  obtain ⟨i1, i2, i3, i4, i5, i6, i7, i8, i9⟩ := hs
  refine ⟨?_, ?_, ?_, ?_, ?_, ?_, ?_, ?_, ?_⟩
  · exact mapSet_keys_nodup i1
  · intro p hp
    rcases mem_mapSet hp with rfl | hp
    · simp [registerPendingRequest]
    · exact Nat.lt_succ_of_lt (i2 p hp)
  · intro tm htm
    rcases List.mem_append.mp htm with htm | htm
    · exact Nat.lt_succ_of_lt (i3 tm htm)
    · obtain rfl := List.mem_singleton.mp htm
      exact Nat.lt_succ_self _
  · simp only [registerPendingRequest, List.map_append, List.map_cons,
      List.map_nil]
    rw [List.nodup_append]
    refine ⟨i4, by simp, ?_⟩
    intro a ha hb
    simp only [List.mem_singleton] at hb
    subst hb
    rcases List.mem_map.mp ha with ⟨tm, htm, htm1⟩
    exact absurd (htm1 ▸ i3 tm htm) (Nat.lt_irrefl _)
  · intro p hp
    rcases mem_mapSet_resolve i1 hp with rfl | ⟨hpm, hpne⟩
    · exact ⟨s.now + timeoutMs, List.mem_append_right _ (by simp),
        by simp only [registerPendingRequest]; omega⟩
    · obtain ⟨dl, hdl, hnow⟩ := i5 p hpm
      exact ⟨dl, List.mem_append_left _ hdl, hnow⟩
  · intro tm htm p hp
    rcases List.mem_append.mp htm with htm | htm
    · rcases mem_mapSet_resolve i1 hp with rfl | ⟨hpm, _⟩
      · intro he
        exact absurd (he ▸ i3 tm htm) (Nat.lt_irrefl _)
      · exact i6 tm htm p hpm
    · obtain rfl := List.mem_singleton.mp htm
      rcases mem_mapSet_resolve i1 hp with rfl | ⟨hpm, _⟩
      · intro _
        rfl
      · intro he
        exact absurd (he ▸ i2 p hpm) (Nat.lt_irrefl _)
  · intro x hx
    refine ⟨?_, ?_⟩
    · intro tm htm
      rcases List.mem_append.mp htm with htm | htm
      · exact (i7 x hx).1 tm htm
      · obtain rfl := List.mem_singleton.mp htm
        intro he
        exact absurd (he ▸ i9 x hx) (Nat.lt_irrefl _)
    · intro p hp
      rcases mem_mapSet hp with rfl | hp
      · intro he
        exact absurd (he ▸ i9 x hx) (Nat.lt_irrefl _)
      · exact (i7 x hx).2 p hp
  · exact i8
  · intro x hx
    exact Nat.lt_succ_of_lt (i9 x hx)

/-- The invariant is preserved by every step. -/
lemma pendingInv_step {s s' : PendingSvc} (h : PendingStep s s')
    (hs : PendingInv s) : PendingInv s' := by
  cases h with
  | register id timeoutMs => exact pendingInv_register hs id timeoutMs
  | resolveCall id =>
    rcases hr : mapGet s.pending id with _ | r
    · simpa [resolvePendingRequest, hr] using hs
    · have := pendingInv_settle hs id r hr .resolved
      simpa [resolvePendingRequest, hr] using this
  | rejectCall id =>
    rcases hr : mapGet s.pending id with _ | r
    · simpa [rejectPendingRequest, hr] using hs
    · have := pendingInv_settle hs id r hr .rejected
      simpa [rejectPendingRequest, hr] using this
  | fireTimer r id dl ht hdl => exact pendingInv_fire hs ht
  | tick hdue =>
    obtain ⟨i1, i2, i3, i4, i5, i6, i7, i8, i9⟩ := hs
    refine ⟨i1, i2, i3, i4, ?_, i6, i7, i8, i9⟩
    intro p hp
    obtain ⟨dl, hdl, _⟩ := i5 p hp
    exact ⟨dl, hdl, hdue (p.2, p.1, dl) hdl⟩

/-- The invariant holds in every reachable state. -/
lemma pendingInv_reach {s : PendingSvc} (h : PendingReach s) :
    PendingInv s := by
  induction h with
  | refl => exact pendingInv_init
  | tail _ hstep ih => exact pendingInv_step hstep ih

/-- **C6**: in every reachable state of the pending-request machinery:
`resolvePendingRequest` (and symmetrically `rejectPendingRequest`) on a
registered, unsettled id returns `true`, cancels that entry's timeout,
removes the entry from the map and settles callbacks that were never
settled before; on an unknown — or already-settled, hence removed — id it
returns `false` with no side effect. Each registration is settled at most
once (the settlement history never repeats a registration index), and the
map never accumulates stale entries beyond the configured timeout window:
every entry still has its own scheduled, unexpired cancellation timer. -/
theorem pendingRequests_contract (s : PendingSvc) (h : PendingReach s) :
    (∀ id, mapGet s.pending id = none →
      resolvePendingRequest s id = (false, s) ∧
      rejectPendingRequest s id = (false, s)) ∧
    (∀ id r, mapGet s.pending id = some r →
      (resolvePendingRequest s id).1 = true ∧
      mapGet (resolvePendingRequest s id).2.pending id = none ∧
      (∀ tm ∈ (resolvePendingRequest s id).2.timers, tm.1 ≠ r) ∧
      (resolvePendingRequest s id).2.settles =
        s.settles ++ [(r, .resolved)] ∧
      r ∉ s.settles.map Prod.fst) ∧
    (∀ id r, mapGet s.pending id = some r →
      (rejectPendingRequest s id).1 = true ∧
      (rejectPendingRequest s id).2.settles =
        s.settles ++ [(r, .rejected)] ∧
      r ∉ s.settles.map Prod.fst) ∧
    (s.settles.map Prod.fst).Nodup ∧
    (∀ p ∈ s.pending, ∃ dl, (p.2, p.1, dl) ∈ s.timers ∧ s.now ≤ dl) := by
  obtain ⟨i1, i2, i3, i4, i5, i6, i7, i8, i9⟩ := pendingInv_reach h
  have hnotset : ∀ id r, (id, r) ∈ s.pending →
      r ∉ s.settles.map Prod.fst := by
    intro id r hmem hr
    rcases List.mem_map.mp hr with ⟨x, hx, hx1⟩
    exact (i7 x hx).2 (id, r) hmem hx1.symm
  refine ⟨?_, ?_, ?_, i8, i5⟩
  · intro id hid
    constructor
    · simp [resolvePendingRequest, hid]
    · simp [rejectPendingRequest, hid]
  · intro id r hr
    refine ⟨by simp [resolvePendingRequest, hr], ?_, ?_, ?_, ?_⟩
    · simp only [resolvePendingRequest, hr]
      exact mapGet_eq_none_iff.mpr (fun p hp => (mem_mapDelete i1 hp).2)
    · simp only [resolvePendingRequest, hr]
      intro tm htm
      exact (filter_ne_regIdx htm).2
    · simp [resolvePendingRequest, hr]
    · exact hnotset id r (mapGet_some_mem hr)
  · intro id r hr
    refine ⟨by simp [rejectPendingRequest, hr], ?_, ?_⟩
    · simp [rejectPendingRequest, hr]
    · exact hnotset id r (mapGet_some_mem hr)

/-- Witness for C6: register one request, then resolve it; resolving an
unknown id is a no-op returning `false`. -/
theorem pendingRequests_contract_witness :
    (resolvePendingRequest ⟨0, [("a", 0)], [(0, "a", 60000)], [], 1⟩
      "a").1 = true ∧
    mapGet (resolvePendingRequest ⟨0, [("a", 0)], [(0, "a", 60000)], [], 1⟩
      "a").2.pending "a" = none ∧
    resolvePendingRequest ⟨0, [("a", 0)], [(0, "a", 60000)], [], 1⟩
      "missing" =
      (false, ⟨0, [("a", 0)], [(0, "a", 60000)], [], 1⟩) := by
  have hreach : PendingReach ⟨0, [("a", 0)], [(0, "a", 60000)], [], 1⟩ :=
    Relation.ReflTransGen.single
      (PendingStep.register PendingSvc.init "a" 60000)
  have h := pendingRequests_contract _ hreach
  exact ⟨(h.2.1 "a" 0 rfl).1, (h.2.1 "a" 0 rfl).2.1,
    (h.1 "missing" (by decide)).1⟩

end ForexSage
